import Mathlib

/-!
Shallow embedding of the storage layer of GFPc/GFPS_AW_Server
(`aw-core/aw_datastore/datastore.py` and
`aw-core/aw_datastore/storages/peewee.py`).

Time is modelled as microseconds: `datetime` instants are microsecond
counts (`Nat` where only nonnegative instants occur, `Int` on the event
timeline so that subtraction is exact), and `timedelta` durations are
microsecond counts as well.  The SQLite database behind peewee is
modelled as explicit lists of rows; a raised Python exception is an
`Except.error`.
-/

namespace AW

set_option maxRecDepth 100000

/-! ## MD5 (hashlib.md5(...).hexdigest()), used by calculate_bucket_hash_key -/

/-- 2^32, the modulus for 32-bit words. -/
def m32 : Nat := 4294967296

/-- Bitwise complement on 32-bit words represented as `Nat`. -/
def not32 (x : Nat) : Nat := x ^^^ 4294967295

/-- Left-rotation of a 32-bit word. -/
def rotl32 (x n : Nat) : Nat := ((x <<< n) ||| (x >>> (32 - n))) % m32

/-- The 64 MD5 sine-derived constants K[i] (RFC 1321). -/
def md5K : List Nat :=
  [0xd76aa478, 0xe8c7b756, 0x242070db, 0xc1bdceee,
   0xf57c0faf, 0x4787c62a, 0xa8304613, 0xfd469501,
   0x698098d8, 0x8b44f7af, 0xffff5bb1, 0x895cd7be,
   0x6b901122, 0xfd987193, 0xa679438e, 0x49b40821,
   0xf61e2562, 0xc040b340, 0x265e5a51, 0xe9b6c7aa,
   0xd62f105d, 0x02441453, 0xd8a1e681, 0xe7d3fbc8,
   0x21e1cde6, 0xc33707d6, 0xf4d50d87, 0x455a14ed,
   0xa9e3e905, 0xfcefa3f8, 0x676f02d9, 0x8d2a4c8a,
   0xfffa3942, 0x8771f681, 0x6d9d6122, 0xfde5380c,
   0xa4beea44, 0x4bdecfa9, 0xf6bb4b60, 0xbebfbc70,
   0x289b7ec6, 0xeaa127fa, 0xd4ef3085, 0x04881d05,
   0xd9d4d039, 0xe6db99e5, 0x1fa27cf8, 0xc4ac5665,
   0xf4292244, 0x432aff97, 0xab9423a7, 0xfc93a039,
   0x655b59c3, 0x8f0ccc92, 0xffeff47d, 0x85845dd1,
   0x6fa87e4f, 0xfe2ce6e0, 0xa3014314, 0x4e0811a1,
   0xf7537e82, 0xbd3af235, 0x2ad7d2bb, 0xeb86d391]

/-- The 64 MD5 per-round left-rotation amounts (RFC 1321). -/
def md5S : List Nat :=
  [7, 12, 17, 22, 7, 12, 17, 22, 7, 12, 17, 22, 7, 12, 17, 22,
   5, 9, 14, 20, 5, 9, 14, 20, 5, 9, 14, 20, 5, 9, 14, 20,
   4, 11, 16, 23, 4, 11, 16, 23, 4, 11, 16, 23, 4, 11, 16, 23,
   6, 10, 15, 21, 6, 10, 15, 21, 6, 10, 15, 21, 6, 10, 15, 21]

/-- UTF-8 encoding of one character (Python `str.encode("utf-8")`, per char). -/
def utf8Char (c : Char) : List Nat :=
  let n := c.toNat
  if n < 0x80 then [n]
  else if n < 0x800 then
    [0xC0 ||| (n >>> 6), 0x80 ||| (n &&& 0x3F)]
  else if n < 0x10000 then
    [0xE0 ||| (n >>> 12), 0x80 ||| ((n >>> 6) &&& 0x3F), 0x80 ||| (n &&& 0x3F)]
  else
    [0xF0 ||| (n >>> 18), 0x80 ||| ((n >>> 12) &&& 0x3F),
     0x80 ||| ((n >>> 6) &&& 0x3F), 0x80 ||| (n &&& 0x3F)]

/-- UTF-8 byte sequence of a string (Python `str.encode("utf-8")`). -/
def utf8Bytes (s : String) : List Nat := s.data.flatMap utf8Char

/-- `n` little-endian bytes of `v`. -/
def leBytes (v n : Nat) : List Nat := (List.range n).map (fun i => (v >>> (8 * i)) % 256)

/-- A 4-byte little-endian chunk read back as a 32-bit word. -/
def leWord (bs : List Nat) : Nat := bs.foldr (fun b acc => acc * 256 + b) 0

/-- MD5 padding: append 0x80, zero bytes to 56 mod 64, then the 64-bit
little-endian bit length. -/
def md5Pad (msg : List Nat) : List Nat :=
  let L := msg.length
  let z := (120 - ((L + 1) % 64)) % 64
  msg ++ [0x80] ++ List.replicate z 0 ++ leBytes ((8 * L) % 18446744073709551616) 8

/-- Fuel-indexed worker for `chunks`; the fuel bounds the number of chunks
produced and is always instantiated with the list length. -/
def chunksAux (n : Nat) : Nat → List α → List (List α)
  | 0, _ => []
  | _, [] => []
  | fuel + 1, ls => ls.take n :: chunksAux n fuel (ls.drop n)

/-- Yield successive n-sized chunks from ls (peewee.py `chunks`). -/
def chunks (ls : List α) (n : Nat) : List (List α) :=
  if n = 0 then [] else chunksAux n ls.length ls

/-- One MD5 round: state (a,b,c,d), round index i, message words M. -/
def md5Round (M : List Nat) (st : Nat × Nat × Nat × Nat) (i : Nat) : Nat × Nat × Nat × Nat :=
  let a := st.1
  let b := st.2.1
  let c := st.2.2.1
  let d := st.2.2.2
  let fg : Nat × Nat :=
    if i < 16 then ((b &&& c) ||| (not32 b &&& d), i)
    else if i < 32 then ((d &&& b) ||| (not32 d &&& c), (5 * i + 1) % 16)
    else if i < 48 then (b ^^^ c ^^^ d, (3 * i + 5) % 16)
    else (c ^^^ (b ||| not32 d), (7 * i) % 16)
  let f := (fg.1 + a + md5K.getD i 0 + M.getD fg.2 0) % m32
  (d, (b + rotl32 f (md5S.getD i 0)) % m32, b, c)

/-- Process one 64-byte block. -/
def md5Block (st : Nat × Nat × Nat × Nat) (block : List Nat) : Nat × Nat × Nat × Nat :=
  let M := (chunks block 4).map leWord
  let r := (List.range 64).foldl (md5Round M) st
  ((st.1 + r.1) % m32, (st.2.1 + r.2.1) % m32,
   (st.2.2.1 + r.2.2.1) % m32, (st.2.2.2 + r.2.2.2) % m32)

/-- Lower-case hex digit. -/
def hexDigit (n : Nat) : Char := if n < 10 then Char.ofNat (48 + n) else Char.ofNat (87 + n)

/-- Two lower-case hex digits of one byte. -/
def byteHex (b : Nat) : List Char := [hexDigit (b / 16), hexDigit (b % 16)]

/-- `hashlib.md5(bytes).hexdigest()` on a byte list. -/
def md5HexOfBytes (msg : List Nat) : String :=
  let st := (chunks (md5Pad msg) 64).foldl md5Block
    (0x67452301, 0xefcdab89, 0x98badcfe, 0x10325476)
  String.mk ((([st.1, st.2.1, st.2.2.1, st.2.2.2].flatMap (fun w => leBytes w 4)).flatMap byteHex))

/-- `hashlib.md5(s.encode("utf-8")).hexdigest()`. -/
def md5Hex (s : String) : String := md5HexOfBytes (utf8Bytes s)

/-! ## Data model (peewee.py models and the application-level Event) -/

/-- Python `str(user)` for `user : Optional[int]`: `str(None) = "None"`. -/
def pyStrOptInt : Option Int → String
  | none => "None"
  | some n => toString n

/-- peewee.py `calculate_bucket_hash_key(name, user)`:
`hashlib.md5((str(name) + str(user)).encode("utf-8")).hexdigest()`. -/
def calculate_bucket_hash_key (name : String) (user : Option Int) : String :=
  md5Hex (name ++ pyStrOptInt user)

/-- A row of the `bucketmodel` table (class BucketModel).  `key` is the
integer primary key, `id` the human-chosen bucket id carrying a UNIQUE
constraint (`CharField(unique=True)`), `hash_key` the md5 identity. -/
structure BucketRow where
  key : Nat
  id : String
  created : String
  name : Option String
  type_ : String
  client : String
  hostname : String
  datastr : String
  user : Option Int
  hash_key : String
deriving DecidableEq, Repr

/-- A row of the `eventmodel` table (class EventModel).  `timestamp` is a
UTC instant in microseconds, `duration` a span in microseconds (the
Python code stores seconds in a DecimalField; only the common timeline
matters here), `datastr` the JSON-encoded opaque payload. -/
structure EventRow where
  id : Nat
  bucket : Nat
  timestamp : Int
  duration : Int
  datastr : String
deriving DecidableEq, Repr

/-- The SQLite database: the two tables relevant to the claims. -/
structure Store where
  buckets : List BucketRow
  events : List EventRow
deriving DecidableEq, Repr

/-- The application-level `Event` (aw_core.models.Event): `id` is `None`
before first persist; `data` is kept in its JSON-encoded form since it is
opaque to this layer. -/
structure Event where
  id : Option Nat
  timestamp : Int
  duration : Int
  data : String
deriving DecidableEq, Repr

/-- Raised Python exceptions relevant to the embedded operations. -/
inductive PErr where
  /-- sqlite/peewee IntegrityError: a UNIQUE constraint was violated. -/
  | IntegrityError
  /-- Python KeyError: `self.bucket_hash_keys[bucket_hash_key]` missing. -/
  | KeyError
  /-- peewee DoesNotExist: `.get()` matched no row. -/
  | DoesNotExist
  /-- Python TypeError: `raise TypeError` in Bucket.insert. -/
  | TypeError
deriving DecidableEq, Repr

/-! ## PeeweeStorage: bucket operations -/

/-- SQLite rowid assignment for `bucketmodel.key` (IntegerField primary
key left unset on create): one more than the largest existing key. -/
def nextBucketKey (s : Store) : Nat :=
  (s.buckets.foldl (fun m b => max m b.key) 0) + 1

/-- `self.bucket_hash_keys[h]` after `update_bucket_hash_keys()`: the dict
comprehension keeps the last bucket carrying a given hash_key. -/
def bucket_hash_keys (s : Store) (h : String) : Option Nat :=
  ((s.buckets.filter (fun b => b.hash_key == h)).getLast?).map (·.key)

/-- PeeweeStorage.create_bucket: `BucketModel.create(...)` inserts a row,
raising IntegrityError when the UNIQUE constraint on `id` is violated;
on success the computed hash_key is returned. -/
def create_bucket (s : Store) (bucket_id type_id client hostname created : String)
    (name : Option String) (data : Option String) (user : Option Int) :
    Except PErr (Store × String) :=
  if s.buckets.any (fun b => b.id == bucket_id) then
    .error .IntegrityError
  else
    let h := calculate_bucket_hash_key bucket_id user
    let row : BucketRow :=
      { key := nextBucketKey s, id := bucket_id, created := created, name := name,
        type_ := type_id, client := client, hostname := hostname,
        datastr := data.getD ("\x7b\x7d"), user := user, hash_key := h }
    .ok ({ s with buckets := s.buckets ++ [row] }, h)

/-! ## PeeweeStorage: event queries -/

/-- The WHERE clauses added by `PeeweeStorage._where_range`.  Note the
speed-up prefilter `starttime - timedelta(hours=24) <= timestamp`
("We'll assume events aren't >24h"), then the interval conditions
`starttime <= timestamp + duration` and `timestamp <= endtime`.
24 hours = 86400000000 microseconds. -/
def whereRange (starttime endtime : Option Int) (e : EventRow) : Bool :=
  (match starttime with
   | none => true
   | some st =>
     decide (st - 86400000000 ≤ e.timestamp) && decide (st ≤ e.timestamp + e.duration)) &&
  (match endtime with
   | none => true
   | some et => decide (e.timestamp ≤ et))

/-- The ordering used by `ORDER BY timestamp DESC`: earlier rows in the
output have greater-or-equal timestamps. -/
def tsGE (a b : EventRow) : Prop := b.timestamp ≤ a.timestamp

instance : DecidableRel tsGE :=
  fun a b => inferInstanceAs (Decidable (b.timestamp ≤ a.timestamp))

instance : IsTotal EventRow tsGE :=
  ⟨fun a b => le_total b.timestamp a.timestamp⟩

instance : IsTrans EventRow tsGE :=
  ⟨fun _ _ _ h1 h2 => le_trans h2 h1⟩

/-- `ORDER BY timestamp DESC`. -/
def sortDesc (l : List EventRow) : List EventRow :=
  l.insertionSort tsGE

/-- The ordered backend result set of a range query before the LIMIT cap:
the bucket's rows passing `_where_range`, ordered by timestamp
descending. -/
def matchedEvents (s : Store) (key : Nat) (starttime endtime : Option Int) :
    List EventRow :=
  sortDesc ((s.events.filter (fun r => r.bucket == key)).filter (whereRange starttime endtime))

/-- SQLite `LIMIT limit`: a negative limit means no cap. -/
def applyLimit (limit : Int) (xs : List α) : List α :=
  if limit < 0 then xs else xs.take limit.toNat

/-- `Event(**EventModel.json(row))`: the in-memory copy handed back to the
caller (json encode/decode of the opaque payload round-trips). -/
def rowToEvent (r : EventRow) : Event :=
  { id := some r.id, timestamp := r.timestamp, duration := r.duration, data := r.datastr }

/-- The trimming loop at the end of `PeeweeStorage.get_events`: clip an
event's reported interval to the requested window (the first branch uses
the stored fields, the second the possibly already-clipped ones). -/
def clip (starttime endtime : Option Int) (e : Event) : Event :=
  let e1 :=
    match starttime with
    | none => e
    | some st =>
      if e.timestamp < st then
        { e with timestamp := st, duration := (e.timestamp + e.duration) - st }
      else e
  match endtime with
  | none => e1
  | some et =>
    if et < e1.timestamp + e1.duration then { e1 with duration := et - e1.timestamp } else e1

/-- `PeeweeStorage.get_events`: `limit == 0` short-circuits to `[]` before
any query is issued; otherwise the bucket key is looked up
(`BucketModel.get` raises DoesNotExist when absent), the filtered rows
are ordered descending, capped, converted, and trimmed. -/
def get_events (s : Store) (bucket_hash_key : String) (limit : Int)
    (starttime endtime : Option Int) : Except PErr (List Event) :=
  if limit = 0 then .ok []
  else
    match s.buckets.find? (fun b => b.hash_key == bucket_hash_key) with
    | none => .error .DoesNotExist
    | some b =>
      .ok (((applyLimit limit (matchedEvents s b.key starttime endtime)).map rowToEvent).map
        (clip starttime endtime))

/-! ## PeeweeStorage: event writes -/

/-- SQLite rowid assignment for `eventmodel.id` (AutoField): one more than
the largest existing id. -/
def nextEventId (s : Store) : Nat :=
  (s.events.foldl (fun m r => max m r.id) 0) + 1

/-- The effect of `EventModel(...).save()` with a set primary key: peewee
issues `UPDATE ... WHERE id = i` — the row with that id (if any) is
overwritten, and nothing is inserted when no row matches. -/
def updateRowById (s : Store) (bkey : Nat) (i : Nat) (e : Event) : Store :=
  { s with events := s.events.map (fun r =>
      if r.id == i then
        { r with bucket := bkey, timestamp := e.timestamp, duration := e.duration,
                 datastr := e.data }
      else r) }

/-- `PeeweeStorage.insert_one`: build an EventModel from the event and
`save()` it — an INSERT assigning a fresh id when the event has no id,
an UPDATE by primary key when it has one; the (possibly fresh) id is
written back into the returned event. -/
def insert_one (s : Store) (bucket_hash_key : String) (e : Event) :
    Except PErr (Store × Event) :=
  match bucket_hash_keys s bucket_hash_key with
  | none => .error .KeyError
  | some bkey =>
    match e.id with
    | some i => .ok (updateRowById s bkey i e, { e with id := some i })
    | none =>
      let nid := nextEventId s
      .ok ({ s with events := s.events ++
              [{ id := nid, bucket := bkey, timestamp := e.timestamp,
                 duration := e.duration, datastr := e.data }] },
           { e with id := some nid })

/-- `EventModel.insert_many(chunk).execute()`: a bulk INSERT of id-less
rows, each receiving the next rowid in order. -/
def insertBatch (s : Store) (bkey : Nat) (es : List Event) : Store :=
  es.foldl (fun st e =>
    { st with events := st.events ++
        [{ id := nextEventId st, bucket := bkey, timestamp := e.timestamp,
           duration := e.duration, datastr := e.data }] }) s

/-- `PeeweeStorage.insert_many`: events with an id are applied one by one
through `insert_one`; events without an id are turned into row dicts and
bulk-inserted in chunks of 100. -/
def insert_many (s : Store) (bucket_hash_key : String) (events : List Event) :
    Except PErr Store := do
  let s1 ← (events.filter (fun e => e.id.isSome)).foldlM
    (fun st e => (insert_one st bucket_hash_key e).map Prod.fst) s
  let noId := events.filter (fun e => e.id.isNone)
  if noId.isEmpty then
    .ok s1
  else
    match bucket_hash_keys s1 bucket_hash_key with
    | none => .error .KeyError
    | some bkey => .ok ((chunks noId 100).foldl (fun st ch => insertBatch st bkey ch) s1)

/-- `PeeweeStorage._get_event`: the row with the given id inside the given
bucket, or None. -/
def get_event_row (s : Store) (bucket_hash_key : String) (event_id : Nat) :
    Except PErr (Option EventRow) :=
  match bucket_hash_keys s bucket_hash_key with
  | none => .error .KeyError
  | some bkey =>
    .ok ((s.events.filter (fun r => r.bucket == bkey)).find? (fun r => r.id == event_id))

/-- `PeeweeStorage.get_event`: `Event(**EventModel.json(res))` or None. -/
def get_event (s : Store) (bucket_hash_key : String) (event_id : Nat) :
    Except PErr (Option Event) :=
  (get_event_row s bucket_hash_key event_id).map (fun r => r.map rowToEvent)

/-- `PeeweeStorage._get_last`: the bucket's rows ordered by timestamp
descending; `.get()` takes the first and raises DoesNotExist when the
bucket holds no events. -/
def get_last (s : Store) (bucket_hash_key : String) : Except PErr EventRow :=
  match bucket_hash_keys s bucket_hash_key with
  | none => .error .KeyError
  | some bkey =>
    match (sortDesc (s.events.filter (fun r => r.bucket == bkey))).head? with
    | none => .error .DoesNotExist
    | some r => .ok r

/-- `PeeweeStorage.replace_last`: fetch the chronologically last row of the
bucket, overwrite its timestamp/duration/datastr, save, and hand the new
event back with the replaced row's id. -/
def replace_last (s : Store) (bucket_hash_key : String) (event : Event) :
    Except PErr (Store × Event) := do
  let r ← get_last s bucket_hash_key
  let s' : Store :=
    { s with events := s.events.map (fun x =>
        if x.id == r.id then
          { x with timestamp := event.timestamp, duration := event.duration,
                   datastr := event.data }
        else x) }
  .ok (s', { event with id := some r.id })

/-! ## Bucket (datastore.py): boundary normalization, get, insert -/

/-- datastore.py Bucket.get on `starttime`:
`starttime.replace(microsecond=1000 * int(starttime.microsecond / 1000))`.
An instant is a microsecond count; the `microsecond` field is the value
mod 10^6 and `replace` swaps that field. -/
def normStart (t : Nat) : Nat :=
  t / 1000000 * 1000000 + 1000 * (t % 1000000 / 1000)

/-- datastore.py Bucket.get on `endtime`: round up, carrying overflow into
the seconds field:
`milliseconds = 1 + int(endtime.microsecond / 1000)`,
`second_offset = int(milliseconds / 1000)`,
`microseconds = (1000 * milliseconds) % 1000000`,
`endtime.replace(microsecond=microseconds) + timedelta(seconds=second_offset)`. -/
def normEnd (t : Nat) : Nat :=
  let milliseconds := 1 + t % 1000000 / 1000
  let second_offset := milliseconds / 1000
  let microseconds := 1000 * milliseconds % 1000000
  t / 1000000 * 1000000 + microseconds + second_offset * 1000000

/-- datastore.py `Bucket.get`: normalize the boundaries, then delegate to
the storage strategy's get_events. -/
def bucketGet (s : Store) (bucket_hash_key : String) (limit : Int)
    (starttime endtime : Option Nat) : Except PErr (List Event) :=
  get_events s bucket_hash_key limit
    (starttime.map (fun t => (normStart t : Int)))
    (endtime.map (fun t => (normEnd t : Int)))

/-- The dynamically typed argument of `Bucket.insert`: a single `Event`, a
`list`, or any other Python value (neither isinstance check matches). -/
inductive InsertArg where
  | one (e : Event)
  | many (es : List Event)
  | other
deriving Repr

/-- datastore.py `Bucket.insert`: dispatch on the argument's runtime type;
warn (non-fatally) for every event reaching past `now`, then delegate to
insert_one / insert_many; raise TypeError otherwise.  The returned list
collects the events for which `logger.warning` fired. -/
def bucketInsert (s : Store) (bucket_hash_key : String) (arg : InsertArg) (now : Int) :
    Except PErr (Store × Option Event × List Event) :=
  match arg with
  | .one e =>
    let warns := if decide (now < e.timestamp + e.duration) then [e] else []
    (insert_one s bucket_hash_key e).map (fun p => (p.1, some p.2, warns))
  | .many es =>
    let warns := es.filter (fun e => decide (now < e.timestamp + e.duration))
    (insert_many s bucket_hash_key es).map (fun s' => (s', none, warns))
  | .other => .error .TypeError

/-- Modelled from the spec's words (for comparison with `whereRange`): the
event's occupied interval `[timestamp, timestamp + duration)` intersects
the query range `[start, end]` inclusively, i.e. the event does not end
before the range starts and does not start after the range ends. -/
def specIntersects (st et : Int) (r : EventRow) : Prop :=
  st ≤ r.timestamp + r.duration ∧ r.timestamp ≤ et

instance (st et : Int) (r : EventRow) : Decidable (specIntersects st et r) :=
  inferInstanceAs (Decidable (_ ∧ _))

/-! ## Helper lemmas -/

theorem normStart_eq (t : Nat) : normStart t = 1000 * (t / 1000) := by
  unfold normStart
  omega

theorem normEnd_eq (t : Nat) : normEnd t = 1000 * (t / 1000 + 1) := by
  simp only [normEnd]
  omega

/-! ## Claims -/

/-- Claim C3: with boundaries given, `Bucket.get` truncates `start` down to
millisecond resolution (the sub-millisecond remainder is dropped) and
rounds `end` up to the strictly next millisecond boundary, overflow
carried into the seconds field; concretely a start of 10:00:00.123456
(36000123456 microseconds into the day) becomes 10:00:00.123 and an end
of 10:00:00.123456 becomes 10:00:00.124. -/
theorem c3_boundary_normalization :
    (∀ t : Nat, normStart t = 1000 * (t / 1000)) ∧
    (∀ t : Nat, normEnd t = 1000 * (t / 1000 + 1)) ∧
    normStart 36000123456 = 36000123000 ∧ normEnd 36000123456 = 36000124000 := by
  refine ⟨normStart_eq, normEnd_eq, ?_, ?_⟩ <;> decide

/-- Claim C9: when the given `end` lies exactly on a millisecond boundary,
the end used for the backend query is strictly one millisecond later —
the rounding always advances and never leaves an aligned end unchanged;
and a microsecond component of 999000 or more carries into the next
second. -/
theorem c9_end_always_advances :
    (∀ t : Nat, t % 1000 = 0 → normEnd t = t + 1000) ∧
    (∀ t : Nat, 999000 ≤ t % 1000000 → normEnd t / 1000000 = t / 1000000 + 1) := by
  constructor
  · intro t ht
    have h := normEnd_eq t
    omega
  · intro t ht
    have h := normEnd_eq t
    omega

theorem c9_end_always_advances_witness :
    normEnd 36000123000 = 36000124000 ∧ normEnd 36000999500 / 1000000 = 36001 := by
  constructor
  · exact c9_end_always_advances.1 36000123000 (by decide)
  · exact c9_end_always_advances.2 36000999500 (by decide)

/-- Claim C10: `Bucket.insert` with an argument that is neither a single
Event nor a list raises TypeError; the error is raised by the final
`else` branch before any storage-strategy call, so no store mutation can
occur (the operation produces no new store). -/
theorem c10_insert_wrong_type_raises :
    ∀ (s : Store) (bucket_hash_key : String) (now : Int),
      bucketInsert s bucket_hash_key InsertArg.other now = .error .TypeError := by
  intro s bhk now
  rfl

/-- Claim C5: `get_events` with `limit = 0` returns `[]` immediately — for
every store, even one in which the bucket does not exist at all, so the
short-circuit happens before the bucket lookup and before any query is
issued — and a negative limit is unbounded: the whole filtered, ordered,
trimmed result set is returned with no cap. -/
theorem c5_limit_semantics :
    (∀ (s : Store) (bucket_hash_key : String) (starttime endtime : Option Int),
      get_events s bucket_hash_key 0 starttime endtime = .ok []) ∧
    (∀ (s : Store) (bucket_hash_key : String) (starttime endtime : Option Nat),
      bucketGet s bucket_hash_key 0 starttime endtime = .ok []) ∧
    (∀ (s : Store) (bucket_hash_key : String) (limit : Int)
      (starttime endtime : Option Int) (b : BucketRow),
      limit < 0 →
      s.buckets.find? (fun x => x.hash_key == bucket_hash_key) = some b →
      get_events s bucket_hash_key limit starttime endtime =
        .ok (((matchedEvents s b.key starttime endtime).map rowToEvent).map
          (clip starttime endtime))) := by
  refine ⟨?_, ?_, ?_⟩
  · intro s bhk st et
    rfl
  · intro s bhk st et
    rfl
  · intro s bhk limit st et b hl hfind
    unfold get_events
    rw [if_neg (by omega), hfind]
    simp only [applyLimit, if_pos hl]

/-- A bucket row (hash key h0, key 1) used to instantiate hypotheses of
quantified claim theorems. -/
def wBucket : BucketRow :=
  { key := 1, id := "b0", created := "2024-01-01", name := none,
    type_ := "t", client := "c", hostname := "h",
    datastr := "\x7b\x7d", user := none, hash_key := "h0" }

/-- A store holding only `wBucket` and no events. -/
def wStore : Store := { buckets := [wBucket], events := [] }

theorem c5_limit_semantics_witness :
    get_events wStore ("h0") (-1) (some 0) (some 100) =
      .ok (((matchedEvents wStore wBucket.key (some 0) (some 100)).map rowToEvent).map
        (clip (some 0) (some 100))) :=
  c5_limit_semantics.2.2 wStore ("h0") (-1) (some 0) (some 100) wBucket (by decide) (by decide)

/-- The hash key of the first owner's bucket in the C1 scenario. -/
def c1H1 : String := calculate_bucket_hash_key ("work") (some 1)

/-- The bucket row produced by the first create_bucket call of the C1
scenario. -/
def c1Row : BucketRow :=
  { key := 1, id := "work", created := "2024-01-01T00:00:00+00:00", name := none,
    type_ := "test", client := "client", hostname := "host",
    datastr := "\x7b\x7d", user := some 1, hash_key := c1H1 }

/-- The store after the first create_bucket call of the C1 scenario. -/
def c1S1 : Store := { buckets := [c1Row], events := [] }

/-- Claim C1 (code bug): creating bucket id "work" for owner 1 succeeds,
but creating the same bucket id for the distinct owner 2 is rejected by
the UNIQUE constraint on `BucketModel.id` (`CharField(unique=True)`,
peewee.py:104) with an IntegrityError — even though the two owners'
hash_keys are distinct, so the md5 identity scheme itself would have
kept the buckets apart.  The claim (and the spec's per-owner uniqueness
of bucket_id) is contradicted by the schema. -/
theorem c1_duplicate_bucket_id_rejected :
    create_bucket { buckets := [], events := [] } ("work") ("test") ("client") ("host")
        ("2024-01-01T00:00:00+00:00") none none (some 1) = .ok (c1S1, c1H1) ∧
    create_bucket c1S1 ("work") ("test") ("client") ("host")
        ("2024-01-02T00:00:00+00:00") none none (some 2) = .error .IntegrityError ∧
    calculate_bucket_hash_key ("work") (some 1) ≠ calculate_bucket_hash_key ("work") (some 2) := by
  refine ⟨rfl, rfl, ?_⟩
  decide

theorem sortDesc_eq (l : List EventRow) : sortDesc l = List.insertionSort tsGE l := rfl

theorem mem_matchedEvents {s : Store} {key : Nat} {st et : Option Int} {r : EventRow} :
    r ∈ matchedEvents s key st et ↔
      r ∈ s.events ∧ r.bucket = key ∧ whereRange st et r = true := by
  simp only [matchedEvents, sortDesc, List.mem_insertionSort, List.mem_filter,
    beq_iff_eq, Bool.and_eq_true]
  tauto

/-- An event starting 25 hours before the query start whose interval still
reaches one hour past the query start. -/
def c2Row : EventRow :=
  { id := 1, bucket := 1, timestamp := -90000000000, duration := 93600000000,
    datastr := "\x7b\x7d" }

/-- A store holding the bucket `wBucket` and the single event `c2Row`. -/
def c2Store : Store := { buckets := [wBucket], events := [c2Row] }

/-- Claim C2 is false as stated: the stored event `c2Row` occupies
[start − 25h, start + 26h), which intersects the query range
[0, 3600000000] = [start, start + 1h] inclusively, yet the backend
result set of the range query does not contain it (and the full
get_events call returns no events at all), because `_where_range`
prefilters with `starttime - timedelta(hours=24) <= timestamp`. -/
theorem c2_long_event_excluded :
    specIntersects 0 3600000000 c2Row ∧
    c2Row ∈ c2Store.events ∧ c2Row.bucket = wBucket.key ∧
    c2Row ∉ matchedEvents c2Store wBucket.key (some 0) (some 3600000000) ∧
    get_events c2Store ("h0") (-1) (some 0) (some 3600000000) = .ok [] := by
  refine ⟨by decide, by decide, by decide, by decide, rfl⟩

/-- Claim C2 as amended: the backend result set of a range query contains
exactly the bucket's stored events that intersect [start, end]
inclusively AND whose timestamp is no more than 24 hours (86400000000
microseconds) before start — so an event that starts more than 24 hours
before start is excluded even when its interval reaches past start —
and the result set is ordered by timestamp descending. -/
theorem c2_amended_range_query :
    ∀ (s : Store) (key : Nat) (st et : Int),
      (∀ r ∈ s.events, r.bucket = key → st - 86400000000 ≤ r.timestamp →
        st ≤ r.timestamp + r.duration → r.timestamp ≤ et →
        r ∈ matchedEvents s key (some st) (some et)) ∧
      (∀ r ∈ matchedEvents s key (some st) (some et),
        r ∈ s.events ∧ r.bucket = key ∧ st - 86400000000 ≤ r.timestamp ∧
        st ≤ r.timestamp + r.duration ∧ r.timestamp ≤ et) ∧
      List.Sorted tsGE (matchedEvents s key (some st) (some et)) := by
  intro s key st et
  refine ⟨?_, ?_, ?_⟩
  · intro r hr hb h24 hs he
    rw [mem_matchedEvents]
    refine ⟨hr, hb, ?_⟩
    simp only [whereRange, Bool.and_eq_true, decide_eq_true_eq]
    exact ⟨⟨h24, hs⟩, he⟩
  · intro r hr
    rw [mem_matchedEvents] at hr
    obtain ⟨h1, h2, h3⟩ := hr
    simp only [whereRange, Bool.and_eq_true, decide_eq_true_eq] at h3
    exact ⟨h1, h2, h3.1.1, h3.1.2, h3.2⟩
  · exact List.sorted_insertionSort tsGE _

/-- A short event inside the query range of the C2 witness. -/
def c2GoodRow : EventRow :=
  { id := 2, bucket := 1, timestamp := 50, duration := 10, datastr := "\x7b\x7d" }

/-- A store holding the bucket `wBucket` and the single event `c2GoodRow`. -/
def c2WStore : Store := { buckets := [wBucket], events := [c2GoodRow] }

theorem c2_amended_range_query_witness :
    c2GoodRow ∈ matchedEvents c2WStore 1 (some 0) (some 100) :=
  (c2_amended_range_query c2WStore 1 0 100).1 c2GoodRow (by decide) (by decide)
    (by decide) (by decide) (by decide)

instance {ε α : Type} [DecidableEq ε] [DecidableEq α] : DecidableEq (Except ε α) :=
  fun x y =>
    match x, y with
    | .ok a, .ok b =>
      if h : a = b then isTrue (by rw [h]) else isFalse (by intro hc; cases hc; exact h rfl)
    | .error a, .error b =>
      if h : a = b then isTrue (by rw [h]) else isFalse (by intro hc; cases hc; exact h rfl)
    | .ok _, .error _ => isFalse (by intro hc; cases hc)
    | .error _, .ok _ => isFalse (by intro hc; cases hc)

theorem mem_applyLimit {l : List α} {x : α} {n : Int} (h : x ∈ applyLimit n l) : x ∈ l := by
  unfold applyLimit at h
  split at h
  · exact h
  · exact List.take_subset _ _ h

theorem clip_fields (st et : Int) (e : Event) :
    (clip (some st) (some et) e).timestamp = (if e.timestamp < st then st else e.timestamp) ∧
    (clip (some st) (some et) e).duration =
      (if et < (if e.timestamp < st then st else e.timestamp) +
          (if e.timestamp < st then e.timestamp + e.duration - st else e.duration)
       then et - (if e.timestamp < st then st else e.timestamp)
       else (if e.timestamp < st then e.timestamp + e.duration - st else e.duration)) ∧
    (clip (some st) (some et) e).id = e.id ∧ (clip (some st) (some et) e).data = e.data := by
  simp only [clip]
  split_ifs <;> simp_all

/-- Claim C4: on a range query with `start ≤ end` over a store whose
durations are non-negative, every event returned by get_events has its
reported interval inside the requested window; and the trimming step
behaves exactly as claimed: an event starting before `start` is reported
with `timestamp = start` and `duration = original_end − start` (further
reduced to `end − start` when the interval also overruns `end`), an
event starting inside the window keeps its timestamp and is reported
with `duration = end − timestamp` exactly when its interval overruns
`end`.  The store itself is untouched: get_events returns only a list of
fresh Event values and no modified store. -/
theorem c4_reported_intervals_clipped :
    ∀ (s : Store) (bucket_hash_key : String) (limit : Int) (st et : Int)
      (evs : List Event),
      st ≤ et →
      (∀ r ∈ s.events, 0 ≤ r.duration) →
      get_events s bucket_hash_key limit (some st) (some et) = .ok evs →
      (∀ ev ∈ evs, st ≤ ev.timestamp ∧ ev.timestamp + ev.duration ≤ et ∧ 0 ≤ ev.duration) ∧
      (∀ e : Event,
        (e.timestamp < st →
          (clip (some st) (some et) e).timestamp = st ∧
          (e.timestamp + e.duration ≤ et →
            (clip (some st) (some et) e).duration = e.timestamp + e.duration - st) ∧
          (et < e.timestamp + e.duration →
            (clip (some st) (some et) e).duration = et - st)) ∧
        (st ≤ e.timestamp →
          (clip (some st) (some et) e).timestamp = e.timestamp ∧
          (e.timestamp + e.duration ≤ et →
            (clip (some st) (some et) e).duration = e.duration) ∧
          (et < e.timestamp + e.duration →
            (clip (some st) (some et) e).duration = et - e.timestamp))) := by
  intro s bhk limit st et evs hrange hdur hget
  constructor
  · intro ev hev
    unfold get_events at hget
    split at hget
    · cases hget
      cases hev
    · split at hget
      · cases hget
      · cases hget
        simp only [List.mem_map] at hev
        obtain ⟨_, ⟨r, hrmem, rfl⟩, rfl⟩ := hev
        have hr := mem_matchedEvents.mp (mem_applyLimit hrmem)
        obtain ⟨hrs, _, hw⟩ := hr
        simp only [whereRange, Bool.and_eq_true, decide_eq_true_eq] at hw
        have hd := hdur r hrs
        obtain ⟨hts, hdu, _, _⟩ := clip_fields st et (rowToEvent r)
        rw [hts, hdu]
        simp only [rowToEvent]
        split_ifs <;> omega
  · intro e
    obtain ⟨hts, hdu, _, _⟩ := clip_fields st et e
    constructor
    · intro h1
      rw [hts, if_pos h1]
      refine ⟨rfl, ?_, ?_⟩ <;> intro h2 <;> rw [hdu] <;> split_ifs <;> omega
    · intro h1
      rw [hts, if_neg (by omega)]
      refine ⟨rfl, ?_, ?_⟩ <;> intro h2 <;> rw [hdu] <;> split_ifs <;> omega

/-- The single stored event of the C4 witness: it starts 5 before the
window and ends 5 past it. -/
def c4Row : EventRow :=
  { id := 3, bucket := 1, timestamp := -5, duration := 20, datastr := "\x7b\x7d" }

/-- A store holding the bucket `wBucket` and the single event `c4Row`. -/
def c4Store : Store := { buckets := [wBucket], events := [c4Row] }

/-- The event reported for `c4Row` by a query over [0, 10]: clipped to the
window. -/
def c4Clipped : Event :=
  { id := some 3, timestamp := 0, duration := 10, data := "\x7b\x7d" }

theorem c4_reported_intervals_clipped_witness :
    (0 : Int) ≤ c4Clipped.timestamp ∧
    c4Clipped.timestamp + c4Clipped.duration ≤ 10 ∧ (0 : Int) ≤ c4Clipped.duration :=
  (c4_reported_intervals_clipped c4Store ("h0") (-1) 0 10 [c4Clipped]
    (by decide) (by decide) (by decide)).1 c4Clipped (by decide)

/-- Claim C7: with the bucket present in the hash-key map, `replace_last`
on a bucket holding no events fails (the `.get()` inside `_get_last`
raises DoesNotExist — the condition the spec calls EmptyBucket), and on
a non-empty bucket it overwrites a stored event whose timestamp is
maximal in the bucket — only that row's timestamp/duration/data change,
every other row is untouched, and the returned event carries the
replaced row's id. -/
theorem c7_replace_last_semantics :
    ∀ (s : Store) (bucket_hash_key : String) (key : Nat) (e : Event),
      bucket_hash_keys s bucket_hash_key = some key →
      ((s.events.filter (fun r => r.bucket == key)) = [] →
        replace_last s bucket_hash_key e = .error .DoesNotExist) ∧
      ((s.events.filter (fun r => r.bucket == key)) ≠ [] →
        ∃ r, get_last s bucket_hash_key = .ok r ∧ r ∈ s.events ∧ r.bucket = key ∧
          (∀ x ∈ s.events, x.bucket = key → x.timestamp ≤ r.timestamp) ∧
          replace_last s bucket_hash_key e =
            .ok ({ s with events := s.events.map (fun x =>
                if x.id == r.id then
                  { x with timestamp := e.timestamp, duration := e.duration,
                           datastr := e.data }
                else x) },
              { e with id := some r.id })) := by
  intro s bhk key e hk
  constructor
  · intro hfilter
    simp only [replace_last, get_last, hk, hfilter]
    rfl
  · intro hfilter
    obtain ⟨x, xs, hxx⟩ :
        ∃ x xs, sortDesc (s.events.filter (fun r => r.bucket == key)) = x :: xs := by
      cases hsd : sortDesc (s.events.filter (fun r => r.bucket == key)) with
      | nil =>
        exfalso
        apply hfilter
        have hperm := List.perm_insertionSort tsGE (s.events.filter (fun r => r.bucket == key))
        rw [← sortDesc_eq, hsd] at hperm
        exact hperm.symm.eq_nil
      | cons x xs => exact ⟨x, xs, rfl⟩
    have hmemx : x ∈ s.events.filter (fun r => r.bucket == key) := by
      have hx : x ∈ sortDesc (s.events.filter (fun r => r.bucket == key)) := by
        rw [hxx]; exact List.mem_cons_self x xs
      rw [sortDesc_eq, List.mem_insertionSort] at hx
      exact hx
    have hmem := List.mem_filter.mp hmemx
    refine ⟨x, ?_, hmem.1, by simpa using hmem.2, ?_, ?_⟩
    · simp only [get_last, hk, hxx]
      rfl
    · intro y hy hyb
      have hys : y ∈ sortDesc (s.events.filter (fun r => r.bucket == key)) := by
        rw [sortDesc_eq, List.mem_insertionSort]
        exact List.mem_filter.mpr ⟨hy, by simpa using hyb⟩
      rw [hxx] at hys
      rcases List.mem_cons.mp hys with h | h
      · rw [h]
      · have hsorted := List.sorted_insertionSort tsGE
          (s.events.filter (fun r => r.bucket == key))
        rw [← sortDesc_eq, hxx] at hsorted
        exact List.rel_of_sorted_cons hsorted y h
    · simp only [replace_last, get_last, hk, hxx]
      rfl

/-- The event handed to replace_last in the C7 witness. -/
def c7Ev : Event := { id := none, timestamp := 100, duration := 5, data := "\x7b\x7d" }

theorem c7_replace_last_semantics_witness :
    replace_last wStore ("h0") c7Ev = .error .DoesNotExist :=
  (c7_replace_last_semantics wStore ("h0") 1 c7Ev (by decide)).1 (by decide)

theorem chunksAux_nil (n fuel : Nat) : chunksAux n fuel ([] : List α) = [] := by
  cases fuel <;> rfl

theorem chunksAux_flatten {n : Nat} (hn : n ≠ 0) :
    ∀ (fuel : Nat) (l : List α), l.length ≤ fuel → (chunksAux n fuel l).flatten = l := by
  intro fuel
  induction fuel with
  | zero =>
    intro l h
    have hl : l = [] := List.eq_nil_of_length_eq_zero (Nat.le_zero.mp h)
    rw [hl, chunksAux_nil]
    rfl
  | succ f ih =>
    intro l h
    cases l with
    | nil => rfl
    | cons a as =>
      show ((a :: as).take n :: chunksAux n f ((a :: as).drop n)).flatten = a :: as
      rw [List.flatten_cons, ih ((a :: as).drop n) (by
        simp only [List.length_drop, List.length_cons]
        simp only [List.length_cons] at h
        omega)]
      exact List.take_append_drop n (a :: as)

theorem chunksAux_zero (n : Nat) (l : List α) : chunksAux n 0 l = [] := by
  cases l <;> rfl

theorem chunksAux_length_le {n : Nat} :
    ∀ (fuel : Nat) (l : List α), ∀ c ∈ chunksAux n fuel l, c.length ≤ n := by
  intro fuel
  induction fuel with
  | zero => intro l c hc; rw [chunksAux_zero] at hc; simp at hc
  | succ f ih =>
    intro l c hc
    cases l with
    | nil => cases hc
    | cons a as =>
      rcases List.mem_cons.mp hc with h | h
      · rw [h, List.length_take]
        exact Nat.min_le_left _ _
      · exact ih _ c h

theorem chunksAux_dropLast_length {n : Nat} (hn : n ≠ 0) :
    ∀ (fuel : Nat) (l : List α), l.length ≤ fuel →
      ∀ c ∈ (chunksAux n fuel l).dropLast, c.length = n := by
  intro fuel
  induction fuel with
  | zero =>
    intro l h c hc
    have hl : l = [] := List.eq_nil_of_length_eq_zero (Nat.le_zero.mp h)
    subst hl
    rw [chunksAux_nil] at hc
    simp at hc
  | succ f ih =>
    intro l h c hc
    cases l with
    | nil => rw [chunksAux_nil] at hc; simp at hc
    | cons a as =>
      have hstep : chunksAux n (f + 1) (a :: as) =
          (a :: as).take n :: chunksAux n f ((a :: as).drop n) := rfl
      rw [hstep] at hc
      cases hrest : chunksAux n f ((a :: as).drop n) with
      | nil => rw [hrest] at hc; simp at hc
      | cons b bs =>
        rw [hrest, List.dropLast_cons₂] at hc
        rcases List.mem_cons.mp hc with hcc | hcc
        · have hlen : n ≤ (a :: as).length := by
            by_contra hlt
            have hdrop : (a :: as).drop n = [] := by
              apply List.eq_nil_of_length_eq_zero
              simp only [List.length_drop, List.length_cons]
              simp only [List.length_cons] at hlt
              omega
            rw [hdrop, chunksAux_nil] at hrest
            cases hrest
          rw [hcc, List.length_take]
          simp only [List.length_cons] at hlen ⊢
          omega
        · rw [← hrest] at hcc
          exact ih ((a :: as).drop n) (by
            simp only [List.length_drop, List.length_cons]
            simp only [List.length_cons] at h
            omega) c hcc

theorem chunks_flatten {n : Nat} (hn : n ≠ 0) (l : List α) : (chunks l n).flatten = l := by
  unfold chunks
  rw [if_neg hn]
  exact chunksAux_flatten hn _ l le_rfl

theorem chunks_length_le {n : Nat} (l : List α) : ∀ c ∈ chunks l n, c.length ≤ n := by
  unfold chunks
  split
  · intro c hc; cases hc
  · exact chunksAux_length_le _ l

theorem chunks_dropLast_length {n : Nat} (hn : n ≠ 0) (l : List α) :
    ∀ c ∈ (chunks l n).dropLast, c.length = n := by
  unfold chunks
  rw [if_neg hn]
  exact chunksAux_dropLast_length hn _ l le_rfl

theorem insertBatch_append (s : Store) (k : Nat) (a b : List Event) :
    insertBatch (insertBatch s k a) k b = insertBatch s k (a ++ b) := by
  simp [insertBatch, List.foldl_append]

theorem foldl_insertBatch (k : Nat) :
    ∀ (cs : List (List Event)) (s : Store),
      cs.foldl (fun st ch => insertBatch st k ch) s = insertBatch s k cs.flatten := by
  intro cs
  induction cs with
  | nil => intro s; rfl
  | cons c cs ih =>
    intro s
    rw [List.foldl_cons, List.flatten_cons, ih (insertBatch s k c), insertBatch_append]

theorem insertBatch_buckets (k : Nat) :
    ∀ (es : List Event) (s : Store), (insertBatch s k es).buckets = s.buckets := by
  intro es
  induction es with
  | nil => intro s; rfl
  | cons e es ih =>
    intro s
    show (insertBatch _ k es).buckets = s.buckets
    rw [ih]

theorem bucket_hash_keys_congr {s s' : Store} (h : s'.buckets = s.buckets) :
    bucket_hash_keys s' = bucket_hash_keys s := by
  unfold bucket_hash_keys
  rw [h]

/-- The foldlM over `insert_one` inside insert_many, when every event has a
pre-assigned id, is a sequence of UPDATE-by-id operations. -/
theorem foldlM_insert_one_all_some (bhk : String) (key : Nat) :
    ∀ (evs : List Event) (s : Store),
      bucket_hash_keys s bhk = some key → (∀ e ∈ evs, e.id.isSome) →
      evs.foldlM (fun st e => (insert_one st bhk e).map Prod.fst) s =
        .ok (evs.foldl (fun st e => updateRowById st key (e.id.getD 0) e) s) := by
  intro evs
  induction evs with
  | nil => intro s hk hall; rfl
  | cons e es ih =>
    intro s hk hall
    obtain ⟨i, hi⟩ := Option.isSome_iff_exists.mp (hall e (List.mem_cons_self e es))
    rw [List.foldlM_cons]
    have h1 : (insert_one s bhk e).map Prod.fst =
        .ok (updateRowById s key (e.id.getD 0) e) := by
      unfold insert_one
      rw [hk, hi]
      rfl
    rw [h1, List.foldl_cons]
    show List.foldlM (fun st e => (insert_one st bhk e).map Prod.fst)
      (updateRowById s key (e.id.getD 0) e) es = _
    exact ih (updateRowById s key (e.id.getD 0) e)
      (by rw [bucket_hash_keys_congr
        (rfl : (updateRowById s key (e.id.getD 0) e).buckets = s.buckets)]; exact hk)
      (fun x hx => hall x (List.mem_cons_of_mem e hx))

theorem foldl_updateRowById_buckets (key : Nat) :
    ∀ (l : List Event) (st : Store),
      (l.foldl (fun st e => updateRowById st key (e.id.getD 0) e) st).buckets =
        st.buckets := by
  intro l
  induction l with
  | nil => intro st; rfl
  | cons x xs ih =>
    intro st
    rw [List.foldl_cons, ih]
    rfl

/-- The full behaviour of insert_many on an arbitrary (possibly mixed)
event list when the bucket exists: the id-bearing events are applied one
at a time, in their order, as UPDATE-by-id operations, and then the
id-less events are appended as fresh rows (the chunked bulk inserts,
concatenated). -/
theorem insert_many_eq (s : Store) (bhk : String) (key : Nat) (evs : List Event)
    (hk : bucket_hash_keys s bhk = some key) :
    insert_many s bhk evs =
      .ok (insertBatch ((evs.filter (fun e => e.id.isSome)).foldl
          (fun st e => updateRowById st key (e.id.getD 0) e) s) key
        (evs.filter (fun e => e.id.isNone))) := by
  have hsome : ∀ e ∈ evs.filter (fun e => e.id.isSome), e.id.isSome = true :=
    fun e he => (List.mem_filter.mp he).2
  have hk1 : bucket_hash_keys ((evs.filter (fun e => e.id.isSome)).foldl
      (fun st e => updateRowById st key (e.id.getD 0) e) s) bhk = some key := by
    rw [bucket_hash_keys_congr (foldl_updateRowById_buckets key _ s)]
    exact hk
  unfold insert_many
  rw [foldlM_insert_one_all_some bhk key _ s hk hsome]
  generalize hgen : (evs.filter (fun e => e.id.isSome)).foldl
      (fun st e => updateRowById st key (e.id.getD 0) e) s = s1 at hk1 ⊢
  show (if (evs.filter (fun e => e.id.isNone)).isEmpty then Except.ok s1
    else match bucket_hash_keys s1 bhk with
      | none => Except.error PErr.KeyError
      | some bkey => Except.ok ((chunks (evs.filter (fun e => e.id.isNone)) 100).foldl
          (fun st ch => insertBatch st bkey ch) s1)) = _
  cases hnil : evs.filter (fun e => e.id.isNone) with
  | nil =>
    rfl
  | cons a as =>
    show (match bucket_hash_keys s1 bhk with
      | none => Except.error PErr.KeyError
      | some bkey => Except.ok ((chunks (a :: as) 100).foldl
          (fun st ch => insertBatch st bkey ch) s1)) = _
    rw [hk1]
    show Except.ok ((chunks (a :: as) 100).foldl (fun st ch => insertBatch st key ch) s1) = _
    rw [foldl_insertBatch, chunks_flatten (by omega)]

/-- Claim C6 as amended: for every (possibly mixed) list passed to bulk
insert, the events carrying a pre-assigned id are applied one at a time,
in order, as UPDATE-by-id (replace) operations, and the id-less events
are then inserted as fresh rows via the chunked bulk path; the chunks
are successive groups of at most 100 events, all but possibly the last
hold exactly 100, and they concatenate back to the original id-less
subsequence, so chunking neither loses, duplicates nor reorders rows. -/
theorem c6_bulk_insert_separation :
    (∀ (ls : List Event), (chunks ls 100).flatten = ls) ∧
    (∀ (ls : List Event), ∀ c ∈ chunks ls 100, c.length ≤ 100) ∧
    (∀ (ls : List Event), ∀ c ∈ (chunks ls 100).dropLast, c.length = 100) ∧
    (∀ (s : Store) (bucket_hash_key : String) (key : Nat) (evs : List Event),
      bucket_hash_keys s bucket_hash_key = some key →
      insert_many s bucket_hash_key evs =
        .ok (insertBatch ((evs.filter (fun e => e.id.isSome)).foldl
            (fun st e => updateRowById st key (e.id.getD 0) e) s) key
          (evs.filter (fun e => e.id.isNone)))) :=
  ⟨fun ls => chunks_flatten (by omega) ls,
    fun ls => chunks_length_le ls,
    fun ls => chunks_dropLast_length (by omega) ls,
    fun s bhk key evs hk => insert_many_eq s bhk key evs hk⟩

/-- The id-bearing event of the C6 scenarios. -/
def c6Ev : Event := { id := some 5, timestamp := 0, duration := 10, data := "\x7b\x7d" }

/-- Claim C6 is not literally true: bulk-inserting an event carrying the
pre-assigned id 5 into a bucket with no stored events leaves the store
unchanged — `insert_one`'s `save()` on a model with a set primary key is
an UPDATE matching no row, not a replace-or-insert, so no row with id 5
exists afterwards. -/
theorem c6_preassigned_id_not_upserted :
    insert_many wStore ("h0") [c6Ev] = .ok wStore ∧ wStore.events = [] := by
  exact ⟨by decide, rfl⟩

/-- The id-less event of the C6 witness. -/
def c6EvNew : Event := { id := none, timestamp := 7, duration := 3, data := "\x7b\x7d" }

theorem c6_bulk_insert_separation_witness :
    insert_many wStore ("h0") [c6Ev, c6EvNew] =
      .ok (insertBatch (([c6Ev, c6EvNew].filter (fun e => e.id.isSome)).foldl
          (fun st e => updateRowById st 1 (e.id.getD 0) e) wStore) 1
        ([c6Ev, c6EvNew].filter (fun e => e.id.isNone))) :=
  c6_bulk_insert_separation.2.2.2 wStore ("h0") 1 [c6Ev, c6EvNew] (by decide)

theorem le_foldl_max_id (l : List EventRow) :
    ∀ a : Nat, a ≤ l.foldl (fun m r => max m r.id) a := by
  induction l with
  | nil => intro a; exact le_rfl
  | cons x xs ih =>
    intro a
    calc a ≤ max a x.id := Nat.le_max_left a x.id
    _ ≤ xs.foldl (fun m r => max m r.id) (max a x.id) := ih (max a x.id)

theorem mem_id_le_foldl_max (l : List EventRow) :
    ∀ (a : Nat) (r : EventRow), r ∈ l → r.id ≤ l.foldl (fun m r => max m r.id) a := by
  induction l with
  | nil => intro a r hr; cases hr
  | cons x xs ih =>
    intro a r hr
    rcases List.mem_cons.mp hr with h | h
    · subst h
      calc r.id ≤ max a r.id := Nat.le_max_right a r.id
      _ ≤ xs.foldl (fun m r => max m r.id) (max a r.id) := le_foldl_max_id xs _
    · exact ih (max a x.id) r h

theorem mem_id_lt_nextEventId {s : Store} {r : EventRow} (h : r ∈ s.events) :
    r.id < nextEventId s := by
  have := mem_id_le_foldl_max s.events 0 r h
  unfold nextEventId
  omega

theorem find?_append_of_none {p : α → Bool} {l1 l2 : List α}
    (h : ∀ x ∈ l1, p x = false) : (l1 ++ l2).find? p = l2.find? p := by
  induction l1 with
  | nil => rfl
  | cons a as ih =>
    show List.find? p (a :: (as ++ l2)) = _
    rw [List.find?_cons, h a (List.mem_cons_self a as)]
    exact ih (fun x hx => h x (List.mem_cons_of_mem a hx))

/-- The store after `insert_one` appends a fresh row for an id-less event:
the row gets the next rowid and the bucket's key. -/
def appendEventRow (s : Store) (key : Nat) (e : Event) : Store :=
  { s with events := s.events ++
      [{ id := nextEventId s, bucket := key, timestamp := e.timestamp,
         duration := e.duration, datastr := e.data }] }

theorem insertBatch_mem (k : Nat) :
    ∀ (es : List Event) (s : Store), ∀ e ∈ es,
      ∃ r ∈ (insertBatch s k es).events, r.bucket = k ∧ r.timestamp = e.timestamp ∧
        r.duration = e.duration ∧ r.datastr = e.data := by
  intro es
  induction es with
  | nil => intro s e he; cases he
  | cons x xs ih =>
    intro s e he
    have hmono : ∀ (st : Store) (l : List Event) (r : EventRow), r ∈ st.events →
        r ∈ (insertBatch st k l).events := by
      intro st l
      induction l generalizing st with
      | nil => intro r hr; exact hr
      | cons y ys ihy =>
        intro r hr
        exact ihy _ r (List.mem_append_left _ hr)
    rcases List.mem_cons.mp he with h | h
    · subst h
      refine ⟨{ id := nextEventId s, bucket := k, timestamp := e.timestamp,
                duration := e.duration, datastr := e.data }, ?_, rfl, rfl, rfl, rfl⟩
      exact hmono _ xs _ (List.mem_append_right _ (List.mem_singleton.mpr rfl))
    · exact ih _ e h

/-- A future-dated event carrying the pre-assigned id 5, which matches no
stored row of the C8 counterexample store. -/
def c8StaleEv : Event := { id := some 5, timestamp := 0, duration := 50, data := "\x7b\x7d" }

/-- Claim C8 is not literally true: at `now = 10` the event `c8StaleEv`
reaches 40 into the future, so inserting it into the (empty) bucket
emits the warning and the call succeeds — but because it carries a
pre-assigned id, `insert_one`'s `save()` is an UPDATE matching no row:
the store is unchanged and the event is NOT subsequently retrievable,
refuting "the event is still inserted and subsequently retrievable". -/
theorem c8_stale_id_warned_but_not_inserted :
    bucketInsert wStore ("h0") (.one c8StaleEv) 10 =
      .ok (wStore, some c8StaleEv, [c8StaleEv]) ∧
    get_event wStore ("h0") 5 = .ok none ∧ wStore.events = [] :=
  ⟨by decide, by decide, rfl⟩

/-- Claim C8 as amended: for every event — single, or anywhere inside a
possibly mixed sequence — whose `timestamp + duration` exceeds the
current UTC instant `now`, the non-fatal warning is emitted and the
insert call itself never blocks or fails; an event without a
pre-assigned id is still inserted (it gets the next rowid, and for the
single-event call is subsequently retrievable by that id), while an
event with a pre-assigned id is applied as an UPDATE-by-id, which
overwrites the matching stored row when one exists and inserts nothing
when none does. -/
theorem c8_future_event_warned_never_blocked :
    ∀ (s : Store) (bucket_hash_key : String) (key : Nat) (now : Int) (e : Event),
      bucket_hash_keys s bucket_hash_key = some key →
      now < e.timestamp + e.duration →
      ((e.id = none →
          bucketInsert s bucket_hash_key (.one e) now =
            .ok (appendEventRow s key e, some { e with id := some (nextEventId s) }, [e]) ∧
          get_event (appendEventRow s key e) bucket_hash_key (nextEventId s) =
            .ok (some { e with id := some (nextEventId s) })) ∧
        (∀ i : Nat, e.id = some i →
          bucketInsert s bucket_hash_key (.one e) now =
            .ok (updateRowById s key i e, some e, [e]))) ∧
      (∀ es : List Event, e ∈ es →
        bucketInsert s bucket_hash_key (.many es) now =
          .ok (insertBatch ((es.filter (fun x => x.id.isSome)).foldl
                (fun st x => updateRowById st key (x.id.getD 0) x) s) key
              (es.filter (fun x => x.id.isNone)), none,
            es.filter (fun x => decide (now < x.timestamp + x.duration))) ∧
        e ∈ es.filter (fun x => decide (now < x.timestamp + x.duration)) ∧
        (e.id = none →
          ∃ r ∈ (insertBatch ((es.filter (fun x => x.id.isSome)).foldl
                (fun st x => updateRowById st key (x.id.getD 0) x) s) key
              (es.filter (fun x => x.id.isNone))).events,
            r.bucket = key ∧ r.timestamp = e.timestamp ∧
            r.duration = e.duration ∧ r.datastr = e.data)) := by
  intro s bhk key now e hk hfut
  refine ⟨⟨?_, ?_⟩, ?_⟩
  · intro hid
    constructor
    · simp only [bucketInsert, insert_one, hk, hid, if_pos (decide_eq_true hfut)]
      rfl
    · have hbk : bucket_hash_keys (appendEventRow s key e) bhk = some key := by
        rw [bucket_hash_keys_congr (rfl : (appendEventRow s key e).buckets = s.buckets)]
        exact hk
      simp only [get_event, get_event_row, hbk]
      simp only [appendEventRow]
      rw [List.filter_append]
      have hfp : ∀ x ∈ s.events.filter (fun r => r.bucket == key),
          (x.id == nextEventId s) = false := by
        intro x hx
        have := mem_id_lt_nextEventId (List.mem_filter.mp hx).1
        simp
        omega
      rw [find?_append_of_none hfp]
      simp
      rfl
  · intro i hi
    cases e with
    | mk id0 ts du da =>
      have h0 : id0 = some i := hi
      subst h0
      simp only [bucketInsert, insert_one, hk, if_pos (decide_eq_true hfut)]
      rfl
  · intro es hees
    refine ⟨?_, ?_, ?_⟩
    · simp only [bucketInsert]
      rw [insert_many_eq s bhk key es hk]
      rfl
    · exact List.mem_filter.mpr ⟨hees, decide_eq_true hfut⟩
    · intro hid
      exact insertBatch_mem key (es.filter (fun x => x.id.isNone)) _ e
        (List.mem_filter.mpr ⟨hees, by rw [hid]; rfl⟩)

/-- The future-dated id-less event of the C8 witness: at `now = 10` its
interval [0, 50) reaches 40 into the future. -/
def c8Ev : Event := { id := none, timestamp := 0, duration := 50, data := "\x7b\x7d" }

theorem c8_future_event_warned_never_blocked_witness :
    bucketInsert wStore ("h0") (.one c8Ev) 10 =
      .ok (appendEventRow wStore 1 c8Ev, some { c8Ev with id := some 1 }, [c8Ev]) ∧
    get_event (appendEventRow wStore 1 c8Ev) ("h0") 1 =
      .ok (some { c8Ev with id := some 1 }) :=
  (c8_future_event_warned_never_blocked wStore ("h0") 1 10 c8Ev
    (by decide) (by decide)).1.1 rfl

end AW
